import Mathlib

/-!
Verification development for `rainbow_tag/main.c` (WHY2025 badge sprite demo).

The embedding below models the pure computational content of the C source:

* pixel surfaces are modelled as total functions `Int → Int → Nat`
  (column, row ↦ 16-bit pixel value); the C code addresses pixels through
  `base + row * pitch + col * bpp`, which for the purposes of the claims is
  exactly a function of (column, row);
* the imperative blit loops are modelled as folds over `List.range`,
  threading the destination grid and the running destination cursor `dx`
  exactly as the C loops do;
* C `int` arithmetic is modelled by `Int`.  All division/modulus operations
  reached by the claims have non-negative operands, where C truncating
  division agrees with Lean's `Int` division;
* C `float` state (position, velocity, scale) is modelled by `ℚ`: every
  operation the claims touch (additions, negations, comparisons with exact
  constants, multiplication by half-integer scale factors) is exact in
  IEEE single precision for the magnitudes involved, so `ℚ` is a faithful
  model;
* `Uint32` millisecond counters are modelled by `Nat` (the claims never
  approach the 2^32 wrap).
-/

/-- Model of `SDL_Rect`: four C `int` fields. -/
structure SDLRect where
  x : Int
  y : Int
  w : Int
  h : Int
deriving DecidableEq, Repr

/-- A pixel surface's contents: pixel value at (column, row). -/
def Grid : Type := Int → Int → Nat

/-- A single pixel store `grid[cy][cx] = v`, as performed by e.g.
`drow[dx + i] = pix` in the C source. -/
def updPix (g : Grid) (cx cy : Int) (v : Nat) : Grid :=
  fun a b => if a = cx ∧ b = cy then v else g a b

/- ----------- super-fast RGB565 integer scaling paths ----------- -/

/-- The inner horizontal replication loop of the upscale path:
`for (int i = 0; i < iscale; ++i) drow[dx + i] = pix;` — writes value `v`
to columns `c, c+1, …, c+k-1` of row `row`. -/
def repRun (g : Grid) (c row : Int) (v : Nat) (k : Nat) : Grid :=
  (List.range k).foldl (fun d (i : Nat) => updPix d (c + (i : Int)) row v) g

/-- One iteration of `for (int sx = 0; sx < sr->w; ++sx)` in the upscale
path: reads `pix = srow[sx]`; a colorkey match only advances the cursor
(`dx += iscale`), otherwise the pixel is replicated into `iscale`
consecutive destination columns and the cursor advances. The accumulator
is the pair (destination grid, cursor `dx`). -/
def rowStep (src : Grid) (srx sry : Int) (sy : Nat) (drx row : Int)
    (key k : Nat) : Grid × Nat → Nat → Grid × Nat :=
  fun p sx =>
    let pix := src (srx + (sx : Int)) (sry + (sy : Int))
    if pix = key then (p.1, p.2 + k)
    else (repRun p.1 (drx + (p.2 : Int)) row pix k, p.2 + k)

/-- One source row of the upscale path (one `vy` sub-row pass): the
`sx` loop starting with destination cursor `dx = 0`. -/
def rowBlit (src : Grid) (srx sry : Int) (sy : Nat) (drx row : Int)
    (key k w : Nat) (d0 : Grid) : Grid :=
  ((List.range w).foldl (rowStep src srx sry sy drx row key k) (d0, 0)).1

/-- The upscale fast path (`iscale ∈ {2,3,4}`): for each source row `sy`
and each of the `iscale` destination sub-rows `vy`, run the horizontal
loop targeting destination row `dr.y + sy*iscale + vy`. -/
def blitUp (src : Grid) (sr dr : SDLRect) (key k : Nat) (d0 : Grid) : Grid :=
  (List.range sr.h.toNat).foldl (fun d sy =>
    (List.range k).foldl (fun d vy =>
      rowBlit src sr.x sr.y sy dr.x (dr.y + ((sy * k + vy : Nat) : Int))
        key k sr.w.toNat d) d) d0

/-- One iteration of the downscale column loop
(`for (int sx = 0; sx < sr->w; sx += 2)`, reindexed by `sx = 2*u`):
reads `pix = srow[2u]`, writes it at cursor `dx` unless it matches the
colorkey, and always advances the cursor by 1. -/
def halfStep (src : Grid) (srx sry : Int) (t : Nat) (drx row : Int)
    (key : Nat) : Grid × Nat → Nat → Grid × Nat :=
  fun p u =>
    let pix := src (srx + ((2 * u : Nat) : Int)) (sry + ((2 * t : Nat) : Int))
    (if pix = key then p.1 else updPix p.1 (drx + (p.2 : Int)) row pix, p.2 + 1)

/-- One destination row of the downscale path: the column loop runs for
`sx = 0, 2, …  < sr->w`, i.e. `(w+1)/2` iterations, with cursor from 0. -/
def halfRow (src : Grid) (srx sry : Int) (t : Nat) (drx row : Int)
    (key w : Nat) (d0 : Grid) : Grid :=
  ((List.range ((w + 1) / 2)).foldl (halfStep src srx sry t drx row key) (d0, 0)).1

/-- The downscale-by-2 fast path: the row loop runs for
`sy = 0, 2, … < sr->h`, i.e. `(h+1)/2` iterations (reindexed by
`sy = 2*t`), targeting destination row `dr.y + (sy >> 1) = dr.y + t`. -/
def blitHalf (src : Grid) (sr dr : SDLRect) (key : Nat) (d0 : Grid) : Grid :=
  (List.range ((sr.h.toNat + 1) / 2)).foldl (fun d t =>
    halfRow src sr.x sr.y t dr.x (dr.y + (t : Int)) key sr.w.toNat d) d0

/-- `blit_colorkey_scale_fast_RGB565` from the C source.  `sbpp`/`dbpp`
are the `bytes_per_pixel` of the source/destination pixel-format details;
`scale` is the exact `float` scale (its comparisons with 2.0f, 3.0f, 4.0f
and 0.5f are exact, hence the `ℚ` tests).  Returns the C function's
boolean result (`true` iff the fast path handled the blit) together with
the destination surface contents after the call.  The `SDL_LockSurface`
calls (which cannot fail on in-memory surfaces and affect no pixel data)
are not modelled. -/
def blit_colorkey_scale_fast_RGB565 (sbpp dbpp : Nat) (src : Grid)
    (sr : SDLRect) (dst : Grid) (dr : SDLRect) (key565 : Nat) (scale : ℚ) :
    Bool × Grid :=
  if ¬(sbpp = 2 ∧ dbpp = 2) then (false, dst)
  else if scale = 2 then (true, blitUp src sr dr key565 2 dst)
  else if scale = 3 then (true, blitUp src sr dr key565 3 dst)
  else if scale = 4 then (true, blitUp src sr dr key565 4 dst)
  else if scale = 1/2 then (true, blitHalf src sr dr key565 dst)
  else (false, dst)

/- ----------- characterisation lemmas for the blit loops ----------- -/

theorem updPix_apply (g : Grid) (cx cy : Int) (v : Nat) (a b : Int) :
    updPix g cx cy v a b = if a = cx ∧ b = cy then v else g a b := rfl

theorem repRun_apply (g : Grid) (c row : Int) (v : Nat) (k : Nat)
    (a b : Int) :
    repRun g c row v k a b =
      if b = row ∧ c ≤ a ∧ a < c + (k : Int) then v else g a b := by
  induction k with
  | zero =>
    simp only [repRun, List.range_zero, List.foldl_nil]
    rw [if_neg (by omega)]
  | succ n ih =>
    simp only [repRun, List.range_succ, List.foldl_append, List.foldl_cons,
      List.foldl_nil] at *
    show updPix _ _ _ _ a b = _
    rw [updPix_apply, ih]
    by_cases hb : b = row
    · by_cases h1 : a = c + (n : Int)
      · rw [if_pos ⟨h1, hb⟩, if_pos (by omega)]
      · rw [if_neg (by omega)]
        by_cases h2 : c ≤ a ∧ a < c + (n : Int)
        · rw [if_pos ⟨hb, h2.1, h2.2⟩, if_pos ⟨hb, h2.1, by omega⟩]
        · rw [if_neg (by omega), if_neg (by omega)]
    · rw [if_neg (by omega), if_neg (by omega), if_neg (by omega)]

theorem rowFold_cursor (src : Grid) (srx sry : Int) (sy : Nat)
    (drx row : Int) (key k : Nat) :
    ∀ (l : List Nat) (p : Grid × Nat),
      (l.foldl (rowStep src srx sry sy drx row key k) p).2 =
        p.2 + l.length * k := by
  intro l
  induction l with
  | nil => intro p; simp
  | cons hd tl ih =>
    intro p
    rw [List.foldl_cons, ih]
    have hstep : (rowStep src srx sry sy drx row key k p hd).2 = p.2 + k := by
      simp only [rowStep]
      split_ifs <;> rfl
    rw [hstep, List.length_cons]
    ring

/-- The source pixel feeding destination column `a` of a row blit with
source row `sy`: the column index recovered from the cursor arithmetic is
`(a - drx) / k`. -/
def rowSample (src : Grid) (srx sry : Int) (sy : Nat) (drx : Int)
    (k : Nat) (a : Int) : Nat :=
  src (srx + (((a - drx).toNat / k : Nat) : Int)) (sry + (sy : Int))

theorem rowBlit_apply (src : Grid) (srx sry : Int) (sy : Nat)
    (drx row : Int) (key k : Nat) (hk : 0 < k) (w : Nat) (d0 : Grid)
    (a b : Int) :
    rowBlit src srx sry sy drx row key k w d0 a b =
      if b = row ∧ drx ≤ a ∧ a < drx + ((w * k : Nat) : Int) ∧
          rowSample src srx sry sy drx k a ≠ key
      then rowSample src srx sry sy drx k a
      else d0 a b := by
  induction w with
  | zero =>
    simp only [rowBlit, List.range_zero, List.foldl_nil]
    rw [if_neg (by omega)]
  | succ n ih =>
    simp only [rowBlit, List.range_succ, List.foldl_append, List.foldl_cons,
      List.foldl_nil] at *
    set F := (List.range n).foldl (rowStep src srx sry sy drx row key k)
      (d0, 0) with hF
    have hcur : F.2 = n * k := by
      rw [hF, rowFold_cursor, List.length_range]
      simp
    have hmul : (n + 1) * k = n * k + k := by ring
    simp only [rowStep, hcur]
    by_cases hpix : src (srx + (n : Int)) (sry + (sy : Int)) = key
    · rw [if_pos hpix]
      show F.1 a b = _
      rw [ih]
      by_cases hb : b = row
      · by_cases hlo : drx ≤ a
        · obtain ⟨t, rfl⟩ : ∃ t : Nat, a = drx + (t : Int) :=
            ⟨(a - drx).toNat, by omega⟩
          have hsamp : rowSample src srx sry sy drx k (drx + (t : Int)) =
              src (srx + ((t / k : Nat) : Int)) (sry + (sy : Int)) := by
            have ht : (drx + (t : Int) - drx).toNat = t := by omega
            unfold rowSample
            rw [ht]
          rw [hsamp]
          by_cases hin : t < n * k
          · by_cases hne : src (srx + ((t / k : Nat) : Int))
                (sry + (sy : Int)) = key
            · rw [if_neg (fun h => h.2.2.2 hne), if_neg (fun h => h.2.2.2 hne)]
            · rw [if_pos ⟨hb, hlo, by omega, hne⟩,
                if_pos ⟨hb, hlo, by omega, hne⟩]
          · by_cases hin2 : t < (n + 1) * k
            · have hidx : t / k = n :=
                Nat.div_eq_of_lt_le (by omega) (by omega)
              rw [if_neg (fun h => by
                  have := h.2.2.1
                  omega),
                if_neg (fun h => h.2.2.2 (by rw [hidx]; exact hpix))]
            · rw [if_neg (fun h => by
                  have := h.2.2.1
                  omega),
                if_neg (fun h => by
                  have := h.2.2.1
                  omega)]
        · rw [if_neg (fun h => hlo h.2.1), if_neg (fun h => hlo h.2.1)]
      · rw [if_neg (fun h => hb h.1), if_neg (fun h => hb h.1)]
    · rw [if_neg hpix]
      show repRun F.1 (drx + ((n * k : Nat) : Int)) row _ k a b = _
      rw [repRun_apply, ih]
      by_cases hb : b = row
      · by_cases hlo : drx ≤ a
        · obtain ⟨t, rfl⟩ : ∃ t : Nat, a = drx + (t : Int) :=
            ⟨(a - drx).toNat, by omega⟩
          have hsamp : rowSample src srx sry sy drx k (drx + (t : Int)) =
              src (srx + ((t / k : Nat) : Int)) (sry + (sy : Int)) := by
            have ht : (drx + (t : Int) - drx).toNat = t := by omega
            unfold rowSample
            rw [ht]
          rw [hsamp]
          by_cases hin : n * k ≤ t ∧ t < (n + 1) * k
          · have hidx : t / k = n :=
              Nat.div_eq_of_lt_le (by omega) (by omega)
            rw [if_pos ⟨hb, by omega, by omega⟩,
              if_pos ⟨hb, hlo, by omega, by
                rw [hidx]; exact hpix⟩, hidx]
          · rw [if_neg (fun h => by
                have h1 := h.2.1
                have h2 := h.2.2
                omega)]
            by_cases hin1 : t < n * k
            · by_cases hne : src (srx + ((t / k : Nat) : Int))
                  (sry + (sy : Int)) = key
              · rw [if_neg (fun h => h.2.2.2 hne),
                  if_neg (fun h => h.2.2.2 hne)]
              · rw [if_pos ⟨hb, hlo, by omega, hne⟩,
                  if_pos ⟨hb, hlo, by omega, hne⟩]
            · rw [if_neg (fun h => by
                  have := h.2.2.1
                  omega),
                if_neg (fun h => by
                  have := h.2.2.1
                  omega)]
        · rw [if_neg (fun h => hlo (by
              have := h.2.1
              omega)),
            if_neg (fun h => hlo h.2.1), if_neg (fun h => hlo h.2.1)]
      · rw [if_neg (fun h => hb h.1), if_neg (fun h => hb h.1),
          if_neg (fun h => hb h.1)]

/-- The source pixel feeding destination coordinate (a, b) of the upscale
fast path: both indices are recovered by dividing the destination offset
by the integer scale. -/
def upSample (src : Grid) (sr dr : SDLRect) (k : Nat) (a b : Int) : Nat :=
  src (sr.x + (((a - dr.x).toNat / k : Nat) : Int))
    (sr.y + (((b - dr.y).toNat / k : Nat) : Int))

theorem vyFold_apply (src : Grid) (srx sry drx dry : Int) (key k : Nat)
    (hk : 0 < k) (w : Nat) (sy : Nat) :
    ∀ (j : Nat) (d : Grid) (a b : Int),
      ((List.range j).foldl (fun d (vy : Nat) =>
        rowBlit src srx sry sy drx (dry + ((sy * k + vy : Nat) : Int))
          key k w d) d) a b =
      if dry + ((sy * k : Nat) : Int) ≤ b ∧ b < dry + ((sy * k + j : Nat) : Int) ∧
          drx ≤ a ∧ a < drx + ((w * k : Nat) : Int) ∧
          rowSample src srx sry sy drx k a ≠ key
      then rowSample src srx sry sy drx k a else d a b := by
  intro j
  induction j with
  | zero =>
    intro d a b
    simp only [List.range_zero, List.foldl_nil]
    rw [if_neg (fun h => by
      have h1 := h.1
      have h2 := h.2.1
      omega)]
  | succ j ih =>
    intro d a b
    simp only [List.range_succ, List.foldl_append, List.foldl_cons,
      List.foldl_nil]
    rw [rowBlit_apply _ _ _ _ _ _ _ _ hk, ih]
    by_cases hrow : b = dry + ((sy * k + j : Nat) : Int)
    · by_cases hC : drx ≤ a
      · by_cases hD : a < drx + ((w * k : Nat) : Int)
        · by_cases hE : rowSample src srx sry sy drx k a = key
          · rw [if_neg (fun h => h.2.2.2 hE), if_neg (fun h => by
                have := h.2.1
                omega),
              if_neg (fun h => h.2.2.2.2 hE)]
          · rw [if_pos ⟨hrow, hC, hD, hE⟩,
              if_pos ⟨by omega, by omega, hC, hD, hE⟩]
        · rw [if_neg (fun h => hD h.2.2.1), if_neg (fun h => by
              have := h.2.1
              omega),
            if_neg (fun h => hD h.2.2.2.1)]
      · rw [if_neg (fun h => hC h.2.1), if_neg (fun h => by
            have := h.2.1
            omega),
          if_neg (fun h => hC h.2.2.1)]
    · rw [if_neg (fun h => hrow h.1)]
      by_cases hA : dry + ((sy * k : Nat) : Int) ≤ b
      · by_cases hB : b < dry + ((sy * k + j : Nat) : Int)
        · by_cases hC : drx ≤ a
          · by_cases hD : a < drx + ((w * k : Nat) : Int)
            · by_cases hE : rowSample src srx sry sy drx k a = key
              · rw [if_neg (fun h => h.2.2.2.2 hE),
                  if_neg (fun h => h.2.2.2.2 hE)]
              · rw [if_pos ⟨hA, hB, hC, hD, hE⟩,
                  if_pos ⟨hA, by omega, hC, hD, hE⟩]
            · rw [if_neg (fun h => hD h.2.2.2.1),
                if_neg (fun h => hD h.2.2.2.1)]
          · rw [if_neg (fun h => hC h.2.2.1), if_neg (fun h => hC h.2.2.1)]
        · rw [if_neg (fun h => hB h.2.1), if_neg (fun h => by
              have := h.2.1
              omega)]
      · rw [if_neg (fun h => hA h.1), if_neg (fun h => hA h.1)]

theorem div_band (u m k : Nat) (h1 : m * k ≤ u) (h2 : u < m * k + k) :
    u / k = m := by
  have h3 : u < (m + 1) * k := by
    have hmul : (m + 1) * k = m * k + k := by ring
    omega
  exact Nat.div_eq_of_lt_le h1 h3

theorem upFold_apply (src : Grid) (srx sry drx dry : Int) (key k : Nat)
    (hk : 0 < k) (w : Nat) :
    ∀ (m : Nat) (d0 : Grid) (a b : Int),
      ((List.range m).foldl (fun d (sy : Nat) =>
        (List.range k).foldl (fun d (vy : Nat) =>
          rowBlit src srx sry sy drx (dry + ((sy * k + vy : Nat) : Int))
            key k w d) d) d0) a b =
      if dry ≤ b ∧ b < dry + ((m * k : Nat) : Int) ∧ drx ≤ a ∧
          a < drx + ((w * k : Nat) : Int) ∧
          src (srx + (((a - drx).toNat / k : Nat) : Int))
            (sry + (((b - dry).toNat / k : Nat) : Int)) ≠ key
      then src (srx + (((a - drx).toNat / k : Nat) : Int))
        (sry + (((b - dry).toNat / k : Nat) : Int))
      else d0 a b := by
  intro m
  induction m with
  | zero =>
    intro d0 a b
    simp only [List.range_zero, List.foldl_nil]
    rw [if_neg (fun h => by
      have h1 := h.1
      have h2 := h.2.1
      omega)]
  | succ m ih =>
    intro d0 a b
    have hmul : (m + 1) * k = m * k + k := by ring
    simp only [List.range_succ, List.foldl_append, List.foldl_cons,
      List.foldl_nil]
    rw [vyFold_apply src srx sry drx dry key k hk w m, ih]
    by_cases hA : dry ≤ b
    · obtain ⟨u, rfl⟩ : ∃ u : Nat, b = dry + (u : Int) :=
        ⟨(b - dry).toNat, by omega⟩
      have ht : (dry + (u : Int) - dry).toNat = u := by omega
      by_cases hband : m * k ≤ u ∧ u < m * k + k
      · have hidx : u / k = m := div_band u m k hband.1 hband.2
        have hsamp : rowSample src srx sry m drx k a =
            src (srx + (((a - drx).toNat / k : Nat) : Int))
              (sry + (((dry + (u : Int) - dry).toNat / k : Nat) : Int)) := by
          unfold rowSample
          rw [ht, hidx]
        rw [hsamp]
        by_cases hC : drx ≤ a
        · by_cases hD : a < drx + ((w * k : Nat) : Int)
          · by_cases hE : src (srx + (((a - drx).toNat / k : Nat) : Int))
                (sry + (((dry + (u : Int) - dry).toNat / k : Nat) : Int)) = key
            · rw [if_neg (fun h => h.2.2.2.2 hE),
                if_neg (fun h => by
                  have := h.2.1
                  omega),
                if_neg (fun h => h.2.2.2.2 hE)]
            · rw [if_pos ⟨by omega, by omega, hC, hD, hE⟩,
                if_pos ⟨hA, by omega, hC, hD, hE⟩]
          · rw [if_neg (fun h => hD h.2.2.2.1),
              if_neg (fun h => by
                have := h.2.1
                omega),
              if_neg (fun h => hD h.2.2.2.1)]
        · rw [if_neg (fun h => hC h.2.2.1),
            if_neg (fun h => by
              have := h.2.1
              omega),
            if_neg (fun h => hC h.2.2.1)]
      · rw [if_neg (fun h => hband ⟨by
            have := h.1
            omega, by
            have := h.2
            omega⟩)]
        by_cases hB : u < m * k
        · by_cases hC : drx ≤ a
          · by_cases hD : a < drx + ((w * k : Nat) : Int)
            · by_cases hE : src (srx + (((a - drx).toNat / k : Nat) : Int))
                  (sry + (((dry + (u : Int) - dry).toNat / k : Nat) : Int)) = key
              · rw [if_neg (fun h => h.2.2.2.2 hE),
                  if_neg (fun h => h.2.2.2.2 hE)]
              · rw [if_pos ⟨hA, by omega, hC, hD, hE⟩,
                  if_pos ⟨hA, by omega, hC, hD, hE⟩]
            · rw [if_neg (fun h => hD h.2.2.2.1),
                if_neg (fun h => hD h.2.2.2.1)]
          · rw [if_neg (fun h => hC h.2.2.1), if_neg (fun h => hC h.2.2.1)]
        · rw [if_neg (fun h => hB (by
              have := h.2.1
              omega)),
            if_neg (fun h => by
              have := h.2.1
              omega)]
    · rw [if_neg (fun h => hA (by
          have := h.1
          omega)),
        if_neg (fun h => hA h.1), if_neg (fun h => hA h.1)]

theorem blitUp_apply (src : Grid) (sr dr : SDLRect) (key k : Nat)
    (hk : 0 < k) (d0 : Grid) (a b : Int) :
    blitUp src sr dr key k d0 a b =
      if dr.y ≤ b ∧ b < dr.y + ((sr.h.toNat * k : Nat) : Int) ∧ dr.x ≤ a ∧
          a < dr.x + ((sr.w.toNat * k : Nat) : Int) ∧
          upSample src sr dr k a b ≠ key
      then upSample src sr dr k a b else d0 a b := by
  unfold blitUp upSample
  exact upFold_apply src sr.x sr.y dr.x dr.y key k hk sr.w.toNat
    sr.h.toNat d0 a b

theorem halfFold_cursor (src : Grid) (srx sry : Int) (t : Nat)
    (drx row : Int) (key : Nat) :
    ∀ (l : List Nat) (p : Grid × Nat),
      (l.foldl (halfStep src srx sry t drx row key) p).2 = p.2 + l.length := by
  intro l
  induction l with
  | nil => intro p; simp
  | cons hd tl ih =>
    intro p
    rw [List.foldl_cons, ih]
    show p.2 + 1 + tl.length = _
    rw [List.length_cons]
    ring

/-- The source pixel feeding destination coordinate (a, b) of the
downscale fast path: source indices are twice the destination offsets. -/
def halfSample (src : Grid) (sr dr : SDLRect) (a b : Int) : Nat :=
  src (sr.x + ((2 * (a - dr.x).toNat : Nat) : Int))
    (sr.y + ((2 * (b - dr.y).toNat : Nat) : Int))

theorem halfFold_apply (src : Grid) (srx sry : Int) (t : Nat)
    (drx row : Int) (key : Nat) :
    ∀ (n : Nat) (d0 : Grid) (a b : Int),
      ((List.range n).foldl (halfStep src srx sry t drx row key) (d0, 0)).1 a b =
      if b = row ∧ drx ≤ a ∧ a < drx + (n : Int) ∧
          src (srx + ((2 * (a - drx).toNat : Nat) : Int))
            (sry + ((2 * t : Nat) : Int)) ≠ key
      then src (srx + ((2 * (a - drx).toNat : Nat) : Int))
        (sry + ((2 * t : Nat) : Int))
      else d0 a b := by
  intro n
  induction n with
  | zero =>
    intro d0 a b
    simp only [List.range_zero, List.foldl_nil]
    rw [if_neg (fun h => by
      have h1 := h.2.1
      have h2 := h.2.2.1
      omega)]
  | succ n ih =>
    intro d0 a b
    have hcur : ((List.range n).foldl
        (halfStep src srx sry t drx row key) (d0, 0)).2 = n := by
      rw [halfFold_cursor, List.length_range]
      simp
    simp only [List.range_succ, List.foldl_append, List.foldl_cons,
      List.foldl_nil]
    set F := (List.range n).foldl (halfStep src srx sry t drx row key)
      (d0, 0) with hF
    simp only [halfStep, hcur]
    by_cases hpix : src (srx + ((2 * n : Nat) : Int))
        (sry + ((2 * t : Nat) : Int)) = key
    · rw [if_pos hpix]
      show F.1 a b = _
      rw [ih]
      by_cases hb : b = row
      · by_cases hlo : drx ≤ a
        · obtain ⟨u, rfl⟩ : ∃ u : Nat, a = drx + (u : Int) :=
            ⟨(a - drx).toNat, by omega⟩
          have ht : (drx + (u : Int) - drx).toNat = u := by omega
          rw [ht]
          by_cases hin : u < n
          · by_cases hne : src (srx + ((2 * u : Nat) : Int))
                (sry + ((2 * t : Nat) : Int)) = key
            · rw [if_neg (fun h => h.2.2.2 hne), if_neg (fun h => h.2.2.2 hne)]
            · rw [if_pos ⟨hb, hlo, by omega, hne⟩,
                if_pos ⟨hb, hlo, by omega, hne⟩]
          · by_cases hin2 : u = n
            · rw [if_neg (fun h => by
                  have := h.2.2.1
                  omega),
                if_neg (fun h => h.2.2.2 (by rw [hin2]; exact hpix))]
            · rw [if_neg (fun h => by
                  have := h.2.2.1
                  omega),
                if_neg (fun h => by
                  have := h.2.2.1
                  omega)]
        · rw [if_neg (fun h => hlo h.2.1), if_neg (fun h => hlo h.2.1)]
      · rw [if_neg (fun h => hb h.1), if_neg (fun h => hb h.1)]
    · rw [if_neg hpix]
      show updPix F.1 (drx + (n : Int)) row _ a b = _
      rw [updPix_apply, ih]
      by_cases hb : b = row
      · by_cases hlo : drx ≤ a
        · obtain ⟨u, rfl⟩ : ∃ u : Nat, a = drx + (u : Int) :=
            ⟨(a - drx).toNat, by omega⟩
          have ht : (drx + (u : Int) - drx).toNat = u := by omega
          rw [ht]
          by_cases hin2 : u = n
          · rw [if_pos ⟨by omega, hb⟩,
              if_pos ⟨hb, hlo, by omega, by rw [hin2]; exact hpix⟩, hin2]
          · rw [if_neg (fun h => by
                have := h.1
                omega)]
            by_cases hin : u < n
            · by_cases hne : src (srx + ((2 * u : Nat) : Int))
                  (sry + ((2 * t : Nat) : Int)) = key
              · rw [if_neg (fun h => h.2.2.2 hne),
                  if_neg (fun h => h.2.2.2 hne)]
              · rw [if_pos ⟨hb, hlo, by omega, hne⟩,
                  if_pos ⟨hb, hlo, by omega, hne⟩]
            · rw [if_neg (fun h => by
                  have := h.2.2.1
                  omega),
                if_neg (fun h => by
                  have := h.2.2.1
                  omega)]
        · rw [if_neg (fun h => by
              have := h.1
              exact hlo (by omega)),
            if_neg (fun h => hlo h.2.1), if_neg (fun h => hlo h.2.1)]
      · rw [if_neg (fun h => hb h.2), if_neg (fun h => hb h.1),
          if_neg (fun h => hb h.1)]

theorem halfRow_apply (src : Grid) (srx sry : Int) (t : Nat)
    (drx row : Int) (key w : Nat) (d0 : Grid) (a b : Int) :
    halfRow src srx sry t drx row key w d0 a b =
      if b = row ∧ drx ≤ a ∧ a < drx + (((w + 1) / 2 : Nat) : Int) ∧
          src (srx + ((2 * (a - drx).toNat : Nat) : Int))
            (sry + ((2 * t : Nat) : Int)) ≠ key
      then src (srx + ((2 * (a - drx).toNat : Nat) : Int))
        (sry + ((2 * t : Nat) : Int))
      else d0 a b := by
  unfold halfRow
  exact halfFold_apply src srx sry t drx row key ((w + 1) / 2) d0 a b

theorem halfOuter_apply (src : Grid) (srx sry drx dry : Int) (key w : Nat) :
    ∀ (m : Nat) (d0 : Grid) (a b : Int),
      ((List.range m).foldl (fun d (t : Nat) =>
        halfRow src srx sry t drx (dry + (t : Int)) key w d) d0) a b =
      if dry ≤ b ∧ b < dry + (m : Int) ∧ drx ≤ a ∧
          a < drx + (((w + 1) / 2 : Nat) : Int) ∧
          src (srx + ((2 * (a - drx).toNat : Nat) : Int))
            (sry + ((2 * (b - dry).toNat : Nat) : Int)) ≠ key
      then src (srx + ((2 * (a - drx).toNat : Nat) : Int))
        (sry + ((2 * (b - dry).toNat : Nat) : Int))
      else d0 a b := by
  intro m
  induction m with
  | zero =>
    intro d0 a b
    simp only [List.range_zero, List.foldl_nil]
    rw [if_neg (fun h => by
      have h1 := h.1
      have h2 := h.2.1
      omega)]
  | succ m ih =>
    intro d0 a b
    simp only [List.range_succ, List.foldl_append, List.foldl_cons,
      List.foldl_nil]
    rw [halfRow_apply, ih]
    by_cases hA : dry ≤ b
    · obtain ⟨u, rfl⟩ : ∃ u : Nat, b = dry + (u : Int) :=
        ⟨(b - dry).toNat, by omega⟩
      have ht : (dry + (u : Int) - dry).toNat = u := by omega
      rw [ht]
      by_cases hrow : u = m
      · by_cases hC : drx ≤ a
        · by_cases hD : a < drx + (((w + 1) / 2 : Nat) : Int)
          · by_cases hE : src (srx + ((2 * (a - drx).toNat : Nat) : Int))
                (sry + ((2 * u : Nat) : Int)) = key
            · rw [if_neg (fun h => h.2.2.2 (by rw [hrow] at hE; exact hE)),
                if_neg (fun h => by
                  have := h.2.1
                  omega),
                if_neg (fun h => h.2.2.2.2 hE)]
            · rw [if_pos ⟨by omega, hC, hD, by rw [hrow] at hE; exact hE⟩,
                if_pos ⟨hA, by omega, hC, hD, hE⟩, hrow]
          · rw [if_neg (fun h => hD h.2.2.1),
                if_neg (fun h => by
                  have := h.2.1
                  omega),
                if_neg (fun h => hD h.2.2.2.1)]
        · rw [if_neg (fun h => hC h.2.1),
              if_neg (fun h => by
                have := h.2.1
                omega),
              if_neg (fun h => hC h.2.2.1)]
      · rw [if_neg (fun h => hrow (by
            have := h.1
            omega))]
        by_cases hB : u < m
        · by_cases hC : drx ≤ a
          · by_cases hD : a < drx + (((w + 1) / 2 : Nat) : Int)
            · by_cases hE : src (srx + ((2 * (a - drx).toNat : Nat) : Int))
                  (sry + ((2 * u : Nat) : Int)) = key
              · rw [if_neg (fun h => h.2.2.2.2 hE),
                  if_neg (fun h => h.2.2.2.2 hE)]
              · rw [if_pos ⟨hA, by omega, hC, hD, hE⟩,
                  if_pos ⟨hA, by omega, hC, hD, hE⟩]
            · rw [if_neg (fun h => hD h.2.2.2.1),
                if_neg (fun h => hD h.2.2.2.1)]
          · rw [if_neg (fun h => hC h.2.2.1), if_neg (fun h => hC h.2.2.1)]
        · rw [if_neg (fun h => hrow (by
              have := h.1
              omega)),
            if_neg (fun h => by
              have := h.2.1
              omega)]
    · rw [if_neg (fun h => hA (by
          have := h.1
          omega)),
        if_neg (fun h => hA h.1), if_neg (fun h => hA h.1)]

theorem blitHalf_apply (src : Grid) (sr dr : SDLRect) (key : Nat)
    (d0 : Grid) (a b : Int) :
    blitHalf src sr dr key d0 a b =
      if dr.y ≤ b ∧ b < dr.y + (((sr.h.toNat + 1) / 2 : Nat) : Int) ∧
          dr.x ≤ a ∧ a < dr.x + (((sr.w.toNat + 1) / 2 : Nat) : Int) ∧
          halfSample src sr dr a b ≠ key
      then halfSample src sr dr a b else d0 a b := by
  unfold blitHalf halfSample
  exact halfOuter_apply src sr.x sr.y dr.x dr.y key sr.w.toNat
    ((sr.h.toNat + 1) / 2) d0 a b

theorem blit_fast_eq_up (src dst : Grid) (sr dr : SDLRect) (key : Nat)
    (k : Nat) (hk : k = 2 ∨ k = 3 ∨ k = 4) :
    blit_colorkey_scale_fast_RGB565 2 2 src sr dst dr key (k : ℚ) =
      (true, blitUp src sr dr key k dst) := by
  unfold blit_colorkey_scale_fast_RGB565
  rcases hk with rfl | rfl | rfl
  · rw [if_neg (by simp), if_pos (by norm_num)]
  · rw [if_neg (by simp), if_neg (by norm_num), if_pos (by norm_num)]
  · rw [if_neg (by simp), if_neg (by norm_num), if_neg (by norm_num),
      if_pos (by norm_num)]

theorem blit_fast_eq_half (src dst : Grid) (sr dr : SDLRect) (key : Nat) :
    blit_colorkey_scale_fast_RGB565 2 2 src sr dst dr key (1/2 : ℚ) =
      (true, blitHalf src sr dr key dst) := by
  unfold blit_colorkey_scale_fast_RGB565
  rw [if_neg (by simp), if_neg (by norm_num), if_neg (by norm_num),
    if_neg (by norm_num), if_pos (by norm_num)]

theorem mul_band_lt (s n k e : Nat) (hs : s < n) (he : e < k) :
    s * k + e < n * k := by
  have h1 : (s + 1) * k ≤ n * k := Nat.mul_le_mul_right k (by omega)
  have h2 : (s + 1) * k = s * k + k := by ring
  omega

/-- C1: for every scale in the fast-path set {0.5, 2, 3, 4}, when source
and destination are both 2-bytes-per-pixel surfaces and no source pixel in
the source rectangle equals the colorkey, `blit_colorkey_scale_fast_RGB565`
returns true and every written destination pixel equals the
nearest-neighbor-scaled source pixel: for upscale factor k ∈ {2,3,4},
destination pixel (dr.x + sx*k + i, dr.y + sy*k + j) equals source pixel
(sr.x + sx, sr.y + sy) for all 0 ≤ i,j < k; for scale 0.5, destination
pixel (dr.x + sx/2, dr.y + sy/2) equals source pixel (sr.x + sx, sr.y + sy)
for even sx, sy. -/
theorem C1_fast_blit_nokey_nearest (src d0 : Grid) (sr dr : SDLRect)
    (key : Nat) (k : Nat) (hk : k = 2 ∨ k = 3 ∨ k = 4)
    (nokey : ∀ sx : Nat, sx < sr.w.toNat → ∀ sy : Nat, sy < sr.h.toNat →
      src (sr.x + (sx : Int)) (sr.y + (sy : Int)) ≠ key) :
    ((blit_colorkey_scale_fast_RGB565 2 2 src sr d0 dr key (k : ℚ)).1 = true ∧
      ∀ sx : Nat, sx < sr.w.toNat → ∀ sy : Nat, sy < sr.h.toNat →
        ∀ i : Nat, i < k → ∀ j : Nat, j < k →
          (blit_colorkey_scale_fast_RGB565 2 2 src sr d0 dr key (k : ℚ)).2
              (dr.x + ((sx * k + i : Nat) : Int))
              (dr.y + ((sy * k + j : Nat) : Int)) =
            src (sr.x + (sx : Int)) (sr.y + (sy : Int))) ∧
    ((blit_colorkey_scale_fast_RGB565 2 2 src sr d0 dr key (1/2 : ℚ)).1 = true ∧
      ∀ sx : Nat, sx < sr.w.toNat → ∀ sy : Nat, sy < sr.h.toNat →
        sx % 2 = 0 → sy % 2 = 0 →
          (blit_colorkey_scale_fast_RGB565 2 2 src sr d0 dr key (1/2 : ℚ)).2
              (dr.x + ((sx / 2 : Nat) : Int)) (dr.y + ((sy / 2 : Nat) : Int)) =
            src (sr.x + (sx : Int)) (sr.y + (sy : Int))) := by
  have hk0 : 0 < k := by rcases hk with rfl | rfl | rfl <;> norm_num
  refine ⟨⟨?_, ?_⟩, ?_, ?_⟩
  · rw [blit_fast_eq_up src d0 sr dr key k hk]
  · intro sx hsx sy hsy i hi j hj
    rw [blit_fast_eq_up src d0 sr dr key k hk]
    show blitUp src sr dr key k d0 _ _ = _
    rw [blitUp_apply src sr dr key k hk0]
    have hcol : (dr.x + ((sx * k + i : Nat) : Int) - dr.x).toNat =
        sx * k + i := by omega
    have hrw2 : (dr.y + ((sy * k + j : Nat) : Int) - dr.y).toNat =
        sy * k + j := by omega
    have hcd : (sx * k + i) / k = sx := div_band _ _ _ (by omega) (by omega)
    have hrd : (sy * k + j) / k = sy := div_band _ _ _ (by omega) (by omega)
    have hsamp : upSample src sr dr k (dr.x + ((sx * k + i : Nat) : Int))
        (dr.y + ((sy * k + j : Nat) : Int)) =
        src (sr.x + (sx : Int)) (sr.y + (sy : Int)) := by
      unfold upSample
      rw [hcol, hrw2, hcd, hrd]
    rw [hsamp]
    have hbw : sx * k + i < sr.w.toNat * k := mul_band_lt sx sr.w.toNat k i hsx hi
    have hbh : sy * k + j < sr.h.toNat * k := mul_band_lt sy sr.h.toNat k j hsy hj
    rw [if_pos ⟨by omega, by omega, by omega, by omega, nokey sx hsx sy hsy⟩]
  · rw [blit_fast_eq_half src d0 sr dr key]
  · intro sx hsx sy hsy hex hey
    rw [blit_fast_eq_half src d0 sr dr key]
    show blitHalf src sr dr key d0 _ _ = _
    rw [blitHalf_apply src sr dr key d0]
    have hcol : (dr.x + ((sx / 2 : Nat) : Int) - dr.x).toNat = sx / 2 := by
      omega
    have hrw2 : (dr.y + ((sy / 2 : Nat) : Int) - dr.y).toNat = sy / 2 := by
      omega
    have hsamp : halfSample src sr dr (dr.x + ((sx / 2 : Nat) : Int))
        (dr.y + ((sy / 2 : Nat) : Int)) =
        src (sr.x + (sx : Int)) (sr.y + (sy : Int)) := by
      unfold halfSample
      rw [hcol, hrw2]
      have h2x : 2 * (sx / 2) = sx := by omega
      have h2y : 2 * (sy / 2) = sy := by omega
      rw [h2x, h2y]
    rw [hsamp]
    rw [if_pos ⟨by omega, by omega, by omega, by omega, nokey sx hsx sy hsy⟩]

def cGrid7 : Grid := fun _ _ => 7

def cGrid0 : Grid := fun _ _ => 0

theorem C1_witness :
    (∀ sx : Nat, sx < ((⟨0, 0, 2, 2⟩ : SDLRect)).w.toNat →
      ∀ sy : Nat, sy < ((⟨0, 0, 2, 2⟩ : SDLRect)).h.toNat →
        cGrid7 (((⟨0, 0, 2, 2⟩ : SDLRect)).x + (sx : Int))
          (((⟨0, 0, 2, 2⟩ : SDLRect)).y + (sy : Int)) ≠ 0) ∧
    (blit_colorkey_scale_fast_RGB565 2 2 cGrid7 ⟨0, 0, 2, 2⟩ cGrid0
        ⟨0, 0, 4, 4⟩ 0 ((2 : Nat) : ℚ)).2
        (((⟨0, 0, 4, 4⟩ : SDLRect)).x + ((1 * 2 + 1 : Nat) : Int))
        (((⟨0, 0, 4, 4⟩ : SDLRect)).y + ((0 * 2 + 1 : Nat) : Int)) =
      cGrid7 (((⟨0, 0, 2, 2⟩ : SDLRect)).x + ((1 : Nat) : Int))
        (((⟨0, 0, 2, 2⟩ : SDLRect)).y + ((0 : Nat) : Int)) :=
  ⟨by decide,
    (C1_fast_blit_nokey_nearest cGrid7 cGrid0 ⟨0, 0, 2, 2⟩ ⟨0, 0, 4, 4⟩ 0 2
        (Or.inl rfl) (by decide)).1.2 1 (by decide) 0 (by decide) 1
      (by decide) 1 (by decide)⟩

/-- C2: in the fast-path blit (both surfaces 2 bytes per pixel, scale in
{0.5, 2, 3, 4}), a source pixel equal to the colorkey value never causes
any write to the destination buffer: every destination pixel whose source
sample equals key565 retains the exact value it held before the call, no
destination pixel outside the blit's written region is touched, and the
colorkeyed pixels do not shift any other write (the destination cursor is
only advanced: every non-colorkeyed cell still receives its own sample). -/
theorem C2_fast_blit_colorkey_no_write (src d0 : Grid) (sr dr : SDLRect)
    (key : Nat) (k : Nat) (hk : k = 2 ∨ k = 3 ∨ k = 4) :
    (∀ sx : Nat, sx < sr.w.toNat → ∀ sy : Nat, sy < sr.h.toNat →
      src (sr.x + (sx : Int)) (sr.y + (sy : Int)) = key →
      ∀ i : Nat, i < k → ∀ j : Nat, j < k →
        (blit_colorkey_scale_fast_RGB565 2 2 src sr d0 dr key (k : ℚ)).2
            (dr.x + ((sx * k + i : Nat) : Int))
            (dr.y + ((sy * k + j : Nat) : Int)) =
          d0 (dr.x + ((sx * k + i : Nat) : Int))
            (dr.y + ((sy * k + j : Nat) : Int))) ∧
    (∀ sx : Nat, sx < sr.w.toNat → ∀ sy : Nat, sy < sr.h.toNat →
      src (sr.x + (sx : Int)) (sr.y + (sy : Int)) ≠ key →
      ∀ i : Nat, i < k → ∀ j : Nat, j < k →
        (blit_colorkey_scale_fast_RGB565 2 2 src sr d0 dr key (k : ℚ)).2
            (dr.x + ((sx * k + i : Nat) : Int))
            (dr.y + ((sy * k + j : Nat) : Int)) =
          src (sr.x + (sx : Int)) (sr.y + (sy : Int))) ∧
    (∀ a b : Int, (a < dr.x ∨ dr.x + ((sr.w.toNat * k : Nat) : Int) ≤ a ∨
        b < dr.y ∨ dr.y + ((sr.h.toNat * k : Nat) : Int) ≤ b) →
      (blit_colorkey_scale_fast_RGB565 2 2 src sr d0 dr key (k : ℚ)).2 a b =
        d0 a b) ∧
    (∀ sx : Nat, sx < sr.w.toNat → ∀ sy : Nat, sy < sr.h.toNat →
      sx % 2 = 0 → sy % 2 = 0 →
      src (sr.x + (sx : Int)) (sr.y + (sy : Int)) = key →
        (blit_colorkey_scale_fast_RGB565 2 2 src sr d0 dr key (1/2 : ℚ)).2
            (dr.x + ((sx / 2 : Nat) : Int)) (dr.y + ((sy / 2 : Nat) : Int)) =
          d0 (dr.x + ((sx / 2 : Nat) : Int)) (dr.y + ((sy / 2 : Nat) : Int))) ∧
    (∀ a b : Int, (a < dr.x ∨ dr.x + (((sr.w.toNat + 1) / 2 : Nat) : Int) ≤ a ∨
        b < dr.y ∨ dr.y + (((sr.h.toNat + 1) / 2 : Nat) : Int) ≤ b) →
      (blit_colorkey_scale_fast_RGB565 2 2 src sr d0 dr key (1/2 : ℚ)).2 a b =
        d0 a b) := by
  have hk0 : 0 < k := by rcases hk with rfl | rfl | rfl <;> norm_num
  refine ⟨?_, ?_, ?_, ?_, ?_⟩
  · intro sx hsx sy hsy hkey i hi j hj
    rw [blit_fast_eq_up src d0 sr dr key k hk]
    show blitUp src sr dr key k d0 _ _ = _
    rw [blitUp_apply src sr dr key k hk0]
    have hcol : (dr.x + ((sx * k + i : Nat) : Int) - dr.x).toNat =
        sx * k + i := by omega
    have hrw2 : (dr.y + ((sy * k + j : Nat) : Int) - dr.y).toNat =
        sy * k + j := by omega
    have hcd : (sx * k + i) / k = sx := div_band _ _ _ (by omega) (by omega)
    have hrd : (sy * k + j) / k = sy := div_band _ _ _ (by omega) (by omega)
    have hsamp : upSample src sr dr k (dr.x + ((sx * k + i : Nat) : Int))
        (dr.y + ((sy * k + j : Nat) : Int)) =
        src (sr.x + (sx : Int)) (sr.y + (sy : Int)) := by
      unfold upSample
      rw [hcol, hrw2, hcd, hrd]
    rw [hsamp, if_neg (fun h => h.2.2.2.2 hkey)]
  · intro sx hsx sy hsy hkey i hi j hj
    rw [blit_fast_eq_up src d0 sr dr key k hk]
    show blitUp src sr dr key k d0 _ _ = _
    rw [blitUp_apply src sr dr key k hk0]
    have hcol : (dr.x + ((sx * k + i : Nat) : Int) - dr.x).toNat =
        sx * k + i := by omega
    have hrw2 : (dr.y + ((sy * k + j : Nat) : Int) - dr.y).toNat =
        sy * k + j := by omega
    have hcd : (sx * k + i) / k = sx := div_band _ _ _ (by omega) (by omega)
    have hrd : (sy * k + j) / k = sy := div_band _ _ _ (by omega) (by omega)
    have hsamp : upSample src sr dr k (dr.x + ((sx * k + i : Nat) : Int))
        (dr.y + ((sy * k + j : Nat) : Int)) =
        src (sr.x + (sx : Int)) (sr.y + (sy : Int)) := by
      unfold upSample
      rw [hcol, hrw2, hcd, hrd]
    rw [hsamp]
    have hbw : sx * k + i < sr.w.toNat * k := mul_band_lt sx sr.w.toNat k i hsx hi
    have hbh : sy * k + j < sr.h.toNat * k := mul_band_lt sy sr.h.toNat k j hsy hj
    rw [if_pos ⟨by omega, by omega, by omega, by omega, hkey⟩]
  · intro a b hout
    rw [blit_fast_eq_up src d0 sr dr key k hk]
    show blitUp src sr dr key k d0 _ _ = _
    rw [blitUp_apply src sr dr key k hk0]
    rw [if_neg (fun h => by
      rcases hout with h1 | h1 | h1 | h1
      · exact absurd h.2.2.1 (by omega)
      · exact absurd h.2.2.2.1 (by omega)
      · exact absurd h.1 (by omega)
      · exact absurd h.2.1 (by omega))]
  · intro sx hsx sy hsy hex hey hkey
    rw [blit_fast_eq_half src d0 sr dr key]
    show blitHalf src sr dr key d0 _ _ = _
    rw [blitHalf_apply src sr dr key d0]
    have hcol : (dr.x + ((sx / 2 : Nat) : Int) - dr.x).toNat = sx / 2 := by
      omega
    have hrw2 : (dr.y + ((sy / 2 : Nat) : Int) - dr.y).toNat = sy / 2 := by
      omega
    have hsamp : halfSample src sr dr (dr.x + ((sx / 2 : Nat) : Int))
        (dr.y + ((sy / 2 : Nat) : Int)) =
        src (sr.x + (sx : Int)) (sr.y + (sy : Int)) := by
      unfold halfSample
      rw [hcol, hrw2]
      have h2x : 2 * (sx / 2) = sx := by omega
      have h2y : 2 * (sy / 2) = sy := by omega
      rw [h2x, h2y]
    rw [hsamp, if_neg (fun h => h.2.2.2.2 hkey)]
  · intro a b hout
    rw [blit_fast_eq_half src d0 sr dr key]
    show blitHalf src sr dr key d0 _ _ = _
    rw [blitHalf_apply src sr dr key d0]
    rw [if_neg (fun h => by
      rcases hout with h1 | h1 | h1 | h1
      · exact absurd h.2.2.1 (by omega)
      · exact absurd h.2.2.2.1 (by omega)
      · exact absurd h.1 (by omega)
      · exact absurd h.2.1 (by omega))]

theorem C2_witness :
    ((2 : Nat) = 2 ∨ (2 : Nat) = 3 ∨ (2 : Nat) = 4) ∧
    (blit_colorkey_scale_fast_RGB565 2 2 cGrid7 ⟨0, 0, 2, 2⟩ cGrid0
        ⟨0, 0, 4, 4⟩ 7 ((2 : Nat) : ℚ)).2
        (((⟨0, 0, 4, 4⟩ : SDLRect)).x + ((0 * 2 + 0 : Nat) : Int))
        (((⟨0, 0, 4, 4⟩ : SDLRect)).y + ((0 * 2 + 0 : Nat) : Int)) =
      cGrid0 (((⟨0, 0, 4, 4⟩ : SDLRect)).x + ((0 * 2 + 0 : Nat) : Int))
        (((⟨0, 0, 4, 4⟩ : SDLRect)).y + ((0 * 2 + 0 : Nat) : Int)) :=
  ⟨Or.inl rfl,
    (C2_fast_blit_colorkey_no_write cGrid7 cGrid0 ⟨0, 0, 2, 2⟩ ⟨0, 0, 4, 4⟩ 7 2
        (Or.inl rfl)).1 0 (by decide) 0 (by decide) (by decide) 0
      (by decide) 0 (by decide)⟩

/- ----------------- rotation preprocessor ----------------- -/

/-- An owned pixel buffer (an `SDL_Surface`'s dimensions and contents).
Pixel addressing `sp + y * pitch + x * bpp` is modelled as the function
`pix x y`. -/
structure Surface where
  w : Nat
  h : Nat
  pix : Nat → Nat → Nat

/-- `rotate90_cw` from the C source: the destination has swapped
dimensions (`SDL_CreateSurface(sh, sw, fmt)`), and the copy loop sends
source pixel (x, y) to destination (nx, ny) = (sh-1-y, x); equivalently
the destination pixel at (nx, ny) is the source pixel at (ny, sh-1-nx). -/
def rotate90_cw (src : Surface) : Surface :=
  { w := src.h, h := src.w,
    pix := fun nx ny => src.pix ny (src.h - 1 - nx) }

/-- C7: `rotate90_cw` on a source buffer of width sw and height sh
produces a new buffer of width sh and height sw in which, for every
source coordinate (x, y), the destination pixel at column
(new_width - 1 - y) and row x equals the source pixel at (x, y) — a
single 90-degree clockwise turn. -/
theorem C7_rotate90_cw_single_turn (s : Surface) :
    (rotate90_cw s).w = s.h ∧ (rotate90_cw s).h = s.w ∧
    ∀ x : Nat, x < s.w → ∀ y : Nat, y < s.h →
      (rotate90_cw s).pix ((rotate90_cw s).w - 1 - y) x = s.pix x y := by
  refine ⟨rfl, rfl, ?_⟩
  intro x hx y hy
  show s.pix x (s.h - 1 - (s.h - 1 - y)) = s.pix x y
  have hyy : s.h - 1 - (s.h - 1 - y) = y := by omega
  rw [hyy]

def cSurf : Surface := ⟨2, 3, fun x y => x + 10 * y⟩

theorem C7_witness :
    ((1 : Nat) < cSurf.w ∧ (2 : Nat) < cSurf.h) ∧
    (rotate90_cw cSurf).pix ((rotate90_cw cSurf).w - 1 - 2) 1 =
      cSurf.pix 1 2 :=
  ⟨by decide, (C7_rotate90_cw_single_turn cSurf).2.2 1 (by decide) 2 (by decide)⟩

theorem rotate2_pix (t : Surface) (x y : Nat) :
    (rotate90_cw (rotate90_cw t)).pix x y =
      t.pix (t.w - 1 - x) (t.h - 1 - y) := rfl

/-- C6: applying `rotate90_cw` four times yields a buffer with the same
width and height as the original and identical pixel content at every
in-bounds coordinate (each single application swaps width and height, so
the dimensions return to the original after two and after four
applications). -/
theorem C6_rotate4_identity (s : Surface) :
    (rotate90_cw (rotate90_cw s)).w = s.w ∧
    (rotate90_cw (rotate90_cw s)).h = s.h ∧
    (rotate90_cw (rotate90_cw (rotate90_cw (rotate90_cw s)))).w = s.w ∧
    (rotate90_cw (rotate90_cw (rotate90_cw (rotate90_cw s)))).h = s.h ∧
    ∀ x : Nat, x < s.w → ∀ y : Nat, y < s.h →
      (rotate90_cw (rotate90_cw (rotate90_cw (rotate90_cw s)))).pix x y =
        s.pix x y := by
  refine ⟨rfl, rfl, rfl, rfl, ?_⟩
  intro x hx y hy
  rw [rotate2_pix, rotate2_pix]
  show s.pix (s.w - 1 - (s.w - 1 - x)) (s.h - 1 - (s.h - 1 - y)) = s.pix x y
  have hxx : s.w - 1 - (s.w - 1 - x) = x := by omega
  have hyy : s.h - 1 - (s.h - 1 - y) = y := by omega
  rw [hxx, hyy]

theorem C6_witness :
    ((1 : Nat) < cSurf.w ∧ (2 : Nat) < cSurf.h) ∧
    (rotate90_cw (rotate90_cw (rotate90_cw (rotate90_cw cSurf)))).pix 1 2 =
      cSurf.pix 1 2 :=
  ⟨by decide, (C6_rotate4_identity cSurf).2.2.2.2 1 (by decide) 2 (by decide)⟩

/- ----------------- motion and animation controller ----------------- -/

/-- One axis of the move-and-bounce step of `SDL_AppIterate`: after
`pos += vel`, `if (pos < 0) { pos = 0; vel = -vel; }` and then
`if (pos + size > limit) { pos = limit - size; vel = -vel; }`.  The two
axes of the C code touch disjoint state, so the step is modelled per
axis.  Positions and velocities are `float` in the source (exact for the
magnitudes involved), modelled as `ℚ`; sizes and the screen limit are C
`int`.  Returns (pos, vel). -/
def bounceAxis (limit size : Int) (pos vel : ℚ) : ℚ × ℚ :=
  let p1 : ℚ × ℚ := if pos + vel < 0 then (0, -vel) else (pos + vel, vel)
  if p1.1 + (size : ℚ) > (limit : ℚ) then (((limit - size : Int) : ℚ), -p1.2)
  else p1

/-- The move-and-bounce step of `SDL_AppIterate` (`x += vx; y += vy;`
followed by the four edge checks).  Returns (x, y, vx, vy). -/
def moveBounce (screenW screenH dw dh : Int) (x y vx vy : ℚ) :
    ℚ × ℚ × ℚ × ℚ :=
  ((bounceAxis screenW dw x vx).1, (bounceAxis screenH dh y vy).1,
    (bounceAxis screenW dw x vx).2, (bounceAxis screenH dh y vy).2)

theorem bounceAxis_spec (limit size : Int) (pos vel : ℚ)
    (h0 : 0 ≤ size) (hs : size ≤ limit) :
    0 ≤ (bounceAxis limit size pos vel).1 ∧
    (bounceAxis limit size pos vel).1 + (size : ℚ) ≤ (limit : ℚ) ∧
    (bounceAxis limit size pos vel).2 =
      (if pos + vel < 0 ∨ (limit : ℚ) < pos + vel + (size : ℚ)
        then -vel else vel) := by
  have hsQ : (size : ℚ) ≤ (limit : ℚ) := by exact_mod_cast hs
  have hs0 : (0 : ℚ) ≤ (size : ℚ) := by exact_mod_cast h0
  unfold bounceAxis
  by_cases h1 : pos + vel < 0
  · rw [if_pos h1]
    by_cases h2 : ((0 : ℚ), -vel).1 + (size : ℚ) > (limit : ℚ)
    · exfalso
      have h2q : (0 : ℚ) + (size : ℚ) > (limit : ℚ) := h2
      linarith
    · rw [if_neg h2]
      refine ⟨le_refl 0, ?_, ?_⟩
      · show (0 : ℚ) + (size : ℚ) ≤ (limit : ℚ)
        linarith
      · show -vel = _
        rw [if_pos (Or.inl h1)]
  · rw [if_neg h1]
    by_cases h2 : ((pos + vel : ℚ), vel).1 + (size : ℚ) > (limit : ℚ)
    · rw [if_pos h2]
      have h2q : pos + vel + (size : ℚ) > (limit : ℚ) := h2
      refine ⟨?_, ?_, ?_⟩
      · show (0 : ℚ) ≤ ((limit - size : Int) : ℚ)
        push_cast
        linarith
      · show ((limit - size : Int) : ℚ) + (size : ℚ) ≤ (limit : ℚ)
        push_cast
        linarith
      · show -vel = _
        rw [if_pos (Or.inr (by linarith))]
    · rw [if_neg h2]
      have h2q : ¬(pos + vel + (size : ℚ) > (limit : ℚ)) := h2
      refine ⟨?_, ?_, ?_⟩
      · show (0 : ℚ) ≤ pos + vel
        linarith
      · show pos + vel + (size : ℚ) ≤ (limit : ℚ)
        linarith
      · show vel = _
        rw [if_neg (fun hc => by
          rcases hc with hc | hc
          · exact h1 hc
          · exact h2q (by linarith))]

/-- C3: for every starting position (x, y) and velocity (vx, vy), after
one tick's move-and-bounce step (position += velocity, then the four edge
checks) the draw rectangle of size (dw, dh) lies within
[0, screen_width) × [0, screen_height), and a boundary hit negates
exactly the velocity component(s) whose axis triggered it (a corner hit
negates both independently; an axis hit at most once per tick).  The draw
rectangle must fit the screen (0 ≤ dw ≤ screen_w, 0 ≤ dh ≤ screen_h). -/
theorem C3_move_bounce_clamp (screenW screenH dw dh : Int) (x y vx vy : ℚ)
    (hdw0 : 0 ≤ dw) (hdw : dw ≤ screenW) (hdh0 : 0 ≤ dh)
    (hdh : dh ≤ screenH) :
    0 ≤ (moveBounce screenW screenH dw dh x y vx vy).1 ∧
    (moveBounce screenW screenH dw dh x y vx vy).1 + (dw : ℚ) ≤ (screenW : ℚ) ∧
    0 ≤ (moveBounce screenW screenH dw dh x y vx vy).2.1 ∧
    (moveBounce screenW screenH dw dh x y vx vy).2.1 + (dh : ℚ) ≤ (screenH : ℚ) ∧
    (moveBounce screenW screenH dw dh x y vx vy).2.2.1 =
      (if x + vx < 0 ∨ (screenW : ℚ) < x + vx + (dw : ℚ) then -vx else vx) ∧
    (moveBounce screenW screenH dw dh x y vx vy).2.2.2 =
      (if y + vy < 0 ∨ (screenH : ℚ) < y + vy + (dh : ℚ) then -vy else vy) := by
  obtain ⟨hx1, hx2, hx3⟩ := bounceAxis_spec screenW dw x vx hdw0 hdw
  obtain ⟨hy1, hy2, hy3⟩ := bounceAxis_spec screenH dh y vy hdh0 hdh
  exact ⟨hx1, hx2, hy1, hy2, hx3, hy3⟩

theorem C3_witness :
    ((0 : Int) ≤ 100 ∧ (100 : Int) ≤ 720 ∧ (0 : Int) ≤ 100 ∧
      (100 : Int) ≤ 720) ∧
    (0 ≤ (moveBounce 720 720 100 100 0 0 (-9/5) (7/5)).1 ∧
      (moveBounce 720 720 100 100 0 0 (-9/5) (7/5)).1 + ((100 : Int) : ℚ) ≤
        ((720 : Int) : ℚ) ∧
      0 ≤ (moveBounce 720 720 100 100 0 0 (-9/5) (7/5)).2.1 ∧
      (moveBounce 720 720 100 100 0 0 (-9/5) (7/5)).2.1 + ((100 : Int) : ℚ) ≤
        ((720 : Int) : ℚ) ∧
      (moveBounce 720 720 100 100 0 0 (-9/5) (7/5)).2.2.1 =
        (if (0 : ℚ) + (-9/5) < 0 ∨ ((720 : Int) : ℚ) < 0 + (-9/5) + ((100 : Int) : ℚ)
          then -(-9/5) else (-9/5)) ∧
      (moveBounce 720 720 100 100 0 0 (-9/5) (7/5)).2.2.2 =
        (if (0 : ℚ) + (7/5) < 0 ∨ ((720 : Int) : ℚ) < 0 + (7/5) + ((100 : Int) : ℚ)
          then -(7/5) else (7/5))) :=
  ⟨by norm_num,
    C3_move_bounce_clamp 720 720 100 100 0 0 (-9/5) (7/5) (by norm_num)
      (by norm_num) (by norm_num) (by norm_num)⟩

/-- The animation catch-up loop of `SDL_AppIterate`:
`while (ms_accum >= step) { ms_accum -= step; frame = (frame+1) % frames; }`.
`Uint32` quantities are modelled as `Nat`.  The C loop never terminates
when `step == 0`; the extra `0 < step` guard makes the model total and
agrees with the source whenever the loop terminates. -/
def animLoop (step frames : Nat) (accum frame : Nat) : Nat × Nat :=
  if h : 0 < step ∧ step ≤ accum then
    animLoop step frames (accum - step) ((frame + 1) % frames)
  else (accum, frame)
termination_by accum
decreasing_by omega

/-- The animation-step portion of `SDL_AppIterate`:
`ms_accum += delta` followed by the catch-up loop. -/
def animTick (step frames accum frame delta : Nat) : Nat × Nat :=
  animLoop step frames (accum + delta) frame

theorem animLoop_eq (step frames : Nat) (hstep : 0 < step)
    (hframes : 0 < frames) :
    ∀ (accum frame : Nat), frame < frames →
      animLoop step frames accum frame =
        (accum % step, (frame + accum / step) % frames) := by
  intro accum
  induction accum using Nat.strong_induction_on with
  | _ accum ih =>
    intro frame hframe
    rw [animLoop]
    by_cases hle : step ≤ accum
    · rw [dif_pos ⟨hstep, hle⟩]
      have hrec := ih (accum - step) (by omega) ((frame + 1) % frames)
        (Nat.mod_lt _ hframes)
      rw [hrec]
      have hmod : (accum - step) % step = accum % step := by
        rw [Nat.mod_eq_sub_mod hle]
      have hdiv : accum / step = (accum - step) / step + 1 :=
        Nat.div_eq_sub_div hstep hle
      rw [hmod, hdiv]
      have hfr : ((frame + 1) % frames + (accum - step) / step) % frames =
          (frame + ((accum - step) / step + 1)) % frames := by
        rw [Nat.mod_add_mod]
        have : frame + 1 + (accum - step) / step =
            frame + ((accum - step) / step + 1) := by omega
        rw [this]
      rw [hfr]
    · rw [dif_neg (fun hc => hle hc.2)]
      have h1 : accum % step = accum := Nat.mod_eq_of_lt (by omega)
      have h2 : accum / step = 0 := Nat.div_eq_of_lt (by omega)
      rw [h1, h2]
      have h3 : (frame + 0) % frames = frame := by
        rw [Nat.add_zero, Nat.mod_eq_of_lt hframe]
      rw [h3]

/-- C8: for every tick with elapsed delta d and effective step duration
s > 0, the animation update adds d to the accumulator and then advances
the frame index by exactly floor(accumulator/s) steps modulo the frame
count while reducing the accumulator to accumulator mod s; consequently
after every update the accumulated time is strictly less than the
effective step duration, and the frame index stays in [0, frames). -/
theorem C8_anim_tick_floor_mod (step frames accum frame delta : Nat)
    (hstep : 0 < step) (hframes : 0 < frames) (hframe : frame < frames) :
    animTick step frames accum frame delta =
      ((accum + delta) % step,
        (frame + (accum + delta) / step) % frames) ∧
    (animTick step frames accum frame delta).1 < step ∧
    (animTick step frames accum frame delta).2 < frames := by
  have h := animLoop_eq step frames hstep hframes (accum + delta) frame hframe
  refine ⟨h, ?_, ?_⟩
  · rw [animTick, h]
    exact Nat.mod_lt _ hstep
  · rw [animTick, h]
    exact Nat.mod_lt _ hframes

theorem C8_witness :
    ((0 : Nat) < 82 ∧ (0 : Nat) < 32 ∧ (31 : Nat) < 32) ∧
    (animTick 82 32 10 31 500 =
        ((10 + 500) % 82, (31 + (10 + 500) / 82) % 32) ∧
      (animTick 82 32 10 31 500).1 < 82 ∧
      (animTick 82 32 10 31 500).2 < 32) :=
  ⟨by decide,
    C8_anim_tick_floor_mod 82 32 10 31 500 (by decide) (by decide) (by decide)⟩

/- ----------------- scale presets and cycling ----------------- -/

/-- `SCALE_OPTIONS` from the C source (float literals, exact in binary
floating point, as rationals). -/
def SCALE_OPTIONS : List ℚ := [1/2, 1, 3/2, 2, 5/2, 3, 7/2, 4, 5, 6]

/-- `SCALE_COUNT`. -/
def SCALE_COUNT : Nat := SCALE_OPTIONS.length

/-- `DEFAULT_SCALE` (2.0f). -/
def DEFAULT_SCALE : ℚ := 2

/-- `find_closest_scale_index`: linear scan tracking the first strictly
smaller absolute difference, starting from best = 0, bestdiff = 1e9. -/
def find_closest_scale_index (target : ℚ) : Nat :=
  ((List.range SCALE_COUNT).foldl (fun (p : Nat × ℚ) (i : Nat) =>
    let d0 := target - SCALE_OPTIONS.getD i 0
    let d := if d0 < 0 then -d0 else d0
    if d < p.2 then (i, d) else p) (0, 1000000000)).1

/-- The scale-cycling effect of the `S` key in `app_key`:
`scale_idx = (scale_idx + 1) % SCALE_COUNT`. -/
def cycleScale (i : Nat) : Nat := (i + 1) % SCALE_COUNT

/-- `scale = SCALE_OPTIONS[scale_idx]`. -/
def scaleOf (i : Nat) : ℚ := SCALE_OPTIONS.getD i 0

/-- C9: starting from the initial scale, which is the entry of the
ordered scale list {0.5, 1.0, 1.5, 2.0, 2.5, 3.0, 3.5, 4.0, 5.0, 6.0}
closest to the default 2.0 (index 3, value 2.0), applying the CycleScale
command three times yields scale 3.5, with each command setting
scale_index to (scale_index + 1) mod N and scale to the list entry at
that index. -/
theorem C9_scale_cycle_to_3p5 :
    find_closest_scale_index DEFAULT_SCALE = 3 ∧
    scaleOf (find_closest_scale_index DEFAULT_SCALE) = 2 ∧
    cycleScale 3 = 4 ∧ scaleOf 4 = 5/2 ∧
    cycleScale 4 = 5 ∧ scaleOf 5 = 3 ∧
    cycleScale 5 = 6 ∧ scaleOf 6 = 7/2 ∧
    cycleScale (cycleScale (cycleScale (find_closest_scale_index
      DEFAULT_SCALE))) = 6 := by
  have hfind : find_closest_scale_index DEFAULT_SCALE = 3 := by
    norm_num [find_closest_scale_index, DEFAULT_SCALE, SCALE_COUNT,
      SCALE_OPTIONS, List.range_succ]
  refine ⟨hfind, ?_, ?_, ?_, ?_, ?_, ?_, ?_, ?_⟩ <;>
    norm_num [hfind, scaleOf, cycleScale, SCALE_COUNT, SCALE_OPTIONS]

/- ----------------- sprite grid and frame locator ----------------- -/

/-- `SPRITE_COLS` (the code stores it into `a->cols` once and never
changes it). -/
def SPRITE_COLS : Int := 8

/-- `SPRITE_ROWS`. -/
def SPRITE_ROWS : Int := 4

/-- The `App` state fields the claims touch.  `window`/surface handles,
cached pixel formats and the log-only fields are outside the model;
`a->cols`, `a->rows`, `a->frames`, `a->fw`, `a->fh` are write-once
derived values (see `App.fw` etc. below). -/
structure App where
  screen_w : Int
  screen_h : Int
  tex_w : Int
  tex_h : Int
  anim_step_ms_eff : Nat
  ms_accum : Nat
  frame : Nat
  x : ℚ
  y : ℚ
  vx : ℚ
  vy : ℚ
  rot : Nat
  scale : ℚ
  scale_idx : Nat
  prev_dst : SDLRect
  has_prev : Bool

/-- `a->fw = a->tex_w / a->cols`, assigned once in `SDL_AppInit`. -/
def App.fw (a : App) : Int := a.tex_w / SPRITE_COLS

/-- `a->fh = a->tex_h / a->rows`, assigned once in `SDL_AppInit`. -/
def App.fh (a : App) : Int := a.tex_h / SPRITE_ROWS

/-- `a->frames = a->cols * a->rows`, assigned once in `SDL_AppInit`. -/
def App.frames (_ : App) : Nat := (SPRITE_COLS * SPRITE_ROWS).toNat

/-- Width of `a->sheet_rot[rot]`: the rotated sheets are built by
`rotate90_cw`, each application of which swaps width and height (see
`C7`/`rotate90_cw`), so even rotations have the base dimensions and odd
rotations the swapped ones. -/
def sheetW (a : App) (rot : Nat) : Int :=
  if rot % 4 = 0 ∨ rot % 4 = 2 then a.tex_w else a.tex_h

/-- Height of `a->sheet_rot[rot]`. -/
def sheetH (a : App) (rot : Nat) : Int :=
  if rot % 4 = 0 ∨ rot % 4 = 2 then a.tex_h else a.tex_w

/-- The (cols, rows, fw, fh) quadruple written by `grid_for_rot`. -/
structure GridInfo where
  cols : Int
  rows : Int
  fw : Int
  fh : Int

/-- `grid_for_rot`: for 0°/180° the base grid, for 90°/270° the swapped
grid (`rot & 3` on a non-negative rotation counter is `rot % 4`). -/
def grid_for_rot (a : App) (rot : Nat) : GridInfo :=
  if rot % 4 = 0 ∨ rot % 4 = 2 then ⟨SPRITE_COLS, SPRITE_ROWS, a.fw, a.fh⟩
  else ⟨SPRITE_ROWS, SPRITE_COLS, a.fh, a.fw⟩

/-- `map_cell_for_rot`: maps the base grid cell (base_r, base_c) to the
rotated grid cell (rr, cc) for the given quarter-turn count;
`C = a->cols`, `R = a->rows`. -/
def map_cell_for_rot (rot : Nat) (base_r base_c : Int) : Int × Int :=
  if rot % 4 = 0 then (base_r, base_c)
  else if rot % 4 = 1 then (base_c, SPRITE_ROWS - 1 - base_r)
  else if rot % 4 = 2 then
    (SPRITE_ROWS - 1 - base_r, SPRITE_COLS - 1 - base_c)
  else (SPRITE_COLS - 1 - base_c, base_r)

/-- `if (v < 0) v = 0;` -/
def clamp0 (v : Int) : Int := if v < 0 then 0 else v

/-- `x = cc * fw_i` with `fw_i = W / n`. -/
def cell_x (W n cc : Int) : Int := cc * (W / n)

/-- `w = (cc == cols_r-1) ? (sheet->w - x) : fw_i` — the last column
absorbs the division remainder. -/
def cell_w_raw (W n cc : Int) : Int :=
  if cc = n - 1 then W - cell_x W n cc else W / n

/-- One axis of `get_src_for_frame_rot` (the x/w and y/h computations of
the C function are identical in shape and touch disjoint fields): cell
position and size followed by the defensive clamps
`if (x < 0) x = 0; if (w < 0) w = 0; if (x + w > sheet->w) w = sheet->w - x;`.
Returns (position, size). -/
def src_axis (W n cc : Int) : Int × Int :=
  (clamp0 (cell_x W n cc),
    if clamp0 (cell_x W n cc) + clamp0 (cell_w_raw W n cc) > W
    then W - clamp0 (cell_x W n cc)
    else clamp0 (cell_w_raw W n cc))

/-- `get_src_for_frame_rot`: derive the exact frame size from the rotated
sheet (`fw_i = sheet->w / cols_r`), locate the rotated cell of frame
`idx` (`base_c = idx % a->cols; base_r = idx / a->cols` — both
non-negative in every call, where C truncating division and modulus agree
with the Euclidean ones), and clamp. -/
def get_src_for_frame_rot (a : App) (idx : Int) (rot : Nat) : SDLRect :=
  ⟨(src_axis (sheetW a rot) (grid_for_rot a rot).cols
      (map_cell_for_rot rot (idx / SPRITE_COLS) (idx % SPRITE_COLS)).2).1,
    (src_axis (sheetH a rot) (grid_for_rot a rot).rows
      (map_cell_for_rot rot (idx / SPRITE_COLS) (idx % SPRITE_COLS)).1).1,
    (src_axis (sheetW a rot) (grid_for_rot a rot).cols
      (map_cell_for_rot rot (idx / SPRITE_COLS) (idx % SPRITE_COLS)).2).2,
    (src_axis (sheetH a rot) (grid_for_rot a rot).rows
      (map_cell_for_rot rot (idx / SPRITE_COLS) (idx % SPRITE_COLS)).1).2⟩

/-- The C cast `(int)q` truncates toward zero. -/
def qtrunc (q : ℚ) : Int := if q < 0 then ⌈q⌉ else ⌊q⌋

/-- `draw_size_for_rot`: `w = (int)(fw_r * scale + 0.5f)` (exact in
`float` for the magnitudes involved). -/
def draw_size_for_rot (a : App) (rot : Nat) : Int × Int :=
  (qtrunc (((grid_for_rot a rot).fw : ℚ) * a.scale + 1/2),
    qtrunc (((grid_for_rot a rot).fh : ℚ) * a.scale + 1/2))

theorem src_axis_spec (W n cc : Int) (hn : 0 < n) (hW : n ≤ W)
    (h0 : 0 ≤ cc) (hlt : cc < n) :
    0 ≤ (src_axis W n cc).1 ∧ 0 < (src_axis W n cc).2 ∧
    (src_axis W n cc).1 + (src_axis W n cc).2 ≤ W := by
  have hf1 : 1 ≤ W / n := by
    rw [Int.le_ediv_iff_mul_le hn]
    omega
  have hfge : (0 : Int) ≤ W / n := by omega
  have hdm : n * (W / n) + W % n = W := Int.ediv_add_emod W n
  have hmod : 0 ≤ W % n := Int.emod_nonneg W (by omega)
  have hx0 : 0 ≤ cell_x W n cc := mul_nonneg h0 hfge
  have hw1 : 1 ≤ cell_w_raw W n cc := by
    unfold cell_w_raw cell_x
    split_ifs with hlast
    · have e1 : cc * (W / n) ≤ (n - 1) * (W / n) :=
        mul_le_mul_of_nonneg_right (by omega) hfge
      have e2 : (n - 1) * (W / n) = n * (W / n) - (W / n) := by ring
      linarith
    · exact hf1
  have hxw : cell_x W n cc + cell_w_raw W n cc ≤ W := by
    unfold cell_w_raw cell_x
    split_ifs with hlast
    · linarith
    · have e1 : (cc + 1) * (W / n) ≤ n * (W / n) :=
        mul_le_mul_of_nonneg_right (by omega) hfge
      have e2 : (cc + 1) * (W / n) = cc * (W / n) + (W / n) := by ring
      linarith
  have hcx : clamp0 (cell_x W n cc) = cell_x W n cc := by
    unfold clamp0
    rw [if_neg (not_lt.mpr hx0)]
  have hcw : clamp0 (cell_w_raw W n cc) = cell_w_raw W n cc := by
    unfold clamp0
    rw [if_neg (not_lt.mpr (by omega))]
  unfold src_axis
  rw [hcx, hcw, if_neg (not_lt.mpr hxw)]
  exact ⟨hx0, by omega, hxw⟩

theorem src_axis_div (W n cc : Int) (hn : 0 < n) (hdvd : n ∣ W)
    (hW0 : 0 ≤ W) (h0 : 0 ≤ cc) (hlt : cc < n) :
    (src_axis W n cc).2 = W / n := by
  have hWf : W / n * n = W := Int.ediv_mul_cancel hdvd
  have hfge : (0 : Int) ≤ W / n := Int.ediv_nonneg hW0 (by omega)
  have hx0 : 0 ≤ cell_x W n cc := mul_nonneg h0 hfge
  have hweq : cell_w_raw W n cc = W / n := by
    unfold cell_w_raw cell_x
    split_ifs with hlast
    · rw [hlast]
      have : (n - 1) * (W / n) = W / n * n - W / n := by ring
      omega
    · rfl
  have hxw : cell_x W n cc + cell_w_raw W n cc ≤ W := by
    rw [hweq]
    unfold cell_x
    have e1 : (cc + 1) * (W / n) ≤ n * (W / n) :=
      mul_le_mul_of_nonneg_right (by omega) hfge
    have e2 : (cc + 1) * (W / n) = cc * (W / n) + (W / n) := by ring
    have e3 : n * (W / n) = W / n * n := by ring
    omega
  have hcx : clamp0 (cell_x W n cc) = cell_x W n cc := by
    unfold clamp0
    rw [if_neg (not_lt.mpr hx0)]
  have hcw : clamp0 (cell_w_raw W n cc) = cell_w_raw W n cc := by
    unfold clamp0
    rw [if_neg (not_lt.mpr (by omega))]
  unfold src_axis
  rw [hcx, hcw, if_neg (not_lt.mpr hxw), hweq]

theorem map_cell_bounds (idx : Int) (rot : Nat) (h0 : 0 ≤ idx)
    (hlt : idx < SPRITE_COLS * SPRITE_ROWS) (hrot : rot < 4) :
    0 ≤ (map_cell_for_rot rot (idx / SPRITE_COLS) (idx % SPRITE_COLS)).2 ∧
    (map_cell_for_rot rot (idx / SPRITE_COLS) (idx % SPRITE_COLS)).2 <
      (grid_for_rot a rot).cols ∧
    0 ≤ (map_cell_for_rot rot (idx / SPRITE_COLS) (idx % SPRITE_COLS)).1 ∧
    (map_cell_for_rot rot (idx / SPRITE_COLS) (idx % SPRITE_COLS)).1 <
      (grid_for_rot a rot).rows := by
  unfold SPRITE_COLS SPRITE_ROWS at *
  interval_cases rot <;>
    simp [map_cell_for_rot, grid_for_rot, SPRITE_COLS, SPRITE_ROWS] <;>
    omega

theorem grid_fits (a : App) (rot : Nat) (hrot : rot < 4)
    (hw : SPRITE_COLS ≤ a.tex_w) (hh : SPRITE_ROWS ≤ a.tex_h) :
    0 < (grid_for_rot a rot).cols ∧
    (grid_for_rot a rot).cols ≤ sheetW a rot ∧
    0 < (grid_for_rot a rot).rows ∧
    (grid_for_rot a rot).rows ≤ sheetH a rot := by
  unfold SPRITE_COLS SPRITE_ROWS at *
  interval_cases rot <;>
    simp [grid_for_rot, sheetW, sheetH, SPRITE_COLS, SPRITE_ROWS] <;>
    omega

/-- C5: for every rotation r in {0,1,2,3} and every frame index i in
[0, cols*rows), `get_src_for_frame_rot` returns a rectangle with x ≥ 0,
y ≥ 0, x + w ≤ rotated_sheet_width, y + h ≤ rotated_sheet_height, and
w > 0 and h > 0; the function never fails (the final clamping absorbs any
arithmetic edge case).  The sheet is assumed to be at least one grid cell
wide and tall (cols ≤ tex_w, rows ≤ tex_h), as any loadable sprite sheet
is. -/
theorem C5_get_src_in_bounds (a : App) (idx : Int) (rot : Nat)
    (hrot : rot < 4) (hidx0 : 0 ≤ idx)
    (hidx : idx < SPRITE_COLS * SPRITE_ROWS)
    (hw : SPRITE_COLS ≤ a.tex_w) (hh : SPRITE_ROWS ≤ a.tex_h) :
    0 ≤ (get_src_for_frame_rot a idx rot).x ∧
    0 ≤ (get_src_for_frame_rot a idx rot).y ∧
    0 < (get_src_for_frame_rot a idx rot).w ∧
    0 < (get_src_for_frame_rot a idx rot).h ∧
    (get_src_for_frame_rot a idx rot).x +
      (get_src_for_frame_rot a idx rot).w ≤ sheetW a rot ∧
    (get_src_for_frame_rot a idx rot).y +
      (get_src_for_frame_rot a idx rot).h ≤ sheetH a rot := by
  obtain ⟨hc0, hclt, hr0, hrlt⟩ := map_cell_bounds idx rot hidx0 hidx hrot
  obtain ⟨hgc, hgw, hgr, hgh⟩ := grid_fits a rot hrot hw hh
  obtain ⟨hx1, hx2, hx3⟩ := src_axis_spec (sheetW a rot)
    (grid_for_rot a rot).cols
    (map_cell_for_rot rot (idx / SPRITE_COLS) (idx % SPRITE_COLS)).2
    hgc hgw hc0 hclt
  obtain ⟨hy1, hy2, hy3⟩ := src_axis_spec (sheetH a rot)
    (grid_for_rot a rot).rows
    (map_cell_for_rot rot (idx / SPRITE_COLS) (idx % SPRITE_COLS)).1
    hgr hgh hr0 hrlt
  exact ⟨hx1, hy1, hx2, hy2, hx3, hy3⟩

theorem C5_witness :
    ((0 : Nat) < 4 ∧ (0 : Int) ≤ 5 ∧ (5 : Int) < SPRITE_COLS * SPRITE_ROWS ∧
      SPRITE_COLS ≤ (800 : Int) ∧ SPRITE_ROWS ≤ (400 : Int)) ∧
    (0 ≤ (get_src_for_frame_rot
        ⟨720, 720, 800, 400, 41, 0, 0, 0, 0, 9/5, 7/5, 0, 2, 3,
          ⟨0, 0, 0, 0⟩, false⟩ 5 0).x ∧
      0 ≤ (get_src_for_frame_rot
        ⟨720, 720, 800, 400, 41, 0, 0, 0, 0, 9/5, 7/5, 0, 2, 3,
          ⟨0, 0, 0, 0⟩, false⟩ 5 0).y ∧
      0 < (get_src_for_frame_rot
        ⟨720, 720, 800, 400, 41, 0, 0, 0, 0, 9/5, 7/5, 0, 2, 3,
          ⟨0, 0, 0, 0⟩, false⟩ 5 0).w ∧
      0 < (get_src_for_frame_rot
        ⟨720, 720, 800, 400, 41, 0, 0, 0, 0, 9/5, 7/5, 0, 2, 3,
          ⟨0, 0, 0, 0⟩, false⟩ 5 0).h ∧
      (get_src_for_frame_rot
        ⟨720, 720, 800, 400, 41, 0, 0, 0, 0, 9/5, 7/5, 0, 2, 3,
          ⟨0, 0, 0, 0⟩, false⟩ 5 0).x +
        (get_src_for_frame_rot
        ⟨720, 720, 800, 400, 41, 0, 0, 0, 0, 9/5, 7/5, 0, 2, 3,
          ⟨0, 0, 0, 0⟩, false⟩ 5 0).w ≤
        sheetW ⟨720, 720, 800, 400, 41, 0, 0, 0, 0, 9/5, 7/5, 0, 2, 3,
          ⟨0, 0, 0, 0⟩, false⟩ 0 ∧
      (get_src_for_frame_rot
        ⟨720, 720, 800, 400, 41, 0, 0, 0, 0, 9/5, 7/5, 0, 2, 3,
          ⟨0, 0, 0, 0⟩, false⟩ 5 0).y +
        (get_src_for_frame_rot
        ⟨720, 720, 800, 400, 41, 0, 0, 0, 0, 9/5, 7/5, 0, 2, 3,
          ⟨0, 0, 0, 0⟩, false⟩ 5 0).h ≤
        sheetH ⟨720, 720, 800, 400, 41, 0, 0, 0, 0, 9/5, 7/5, 0, 2, 3,
          ⟨0, 0, 0, 0⟩, false⟩ 0) :=
  ⟨by decide,
    C5_get_src_in_bounds
      ⟨720, 720, 800, 400, 41, 0, 0, 0, 0, 9/5, 7/5, 0, 2, 3,
        ⟨0, 0, 0, 0⟩, false⟩ 5 0 (by decide) (by decide) (by decide)
      (by decide) (by decide)⟩

theorem grid_div_facts (a : App) (rot : Nat) (hrot : rot < 4)
    (hdvw : SPRITE_COLS ∣ a.tex_w) (hdvh : SPRITE_ROWS ∣ a.tex_h)
    (hw0 : 0 ≤ a.tex_w) (hh0 : 0 ≤ a.tex_h) :
    (grid_for_rot a rot).cols ∣ sheetW a rot ∧
    (grid_for_rot a rot).rows ∣ sheetH a rot ∧
    sheetW a rot / (grid_for_rot a rot).cols = (grid_for_rot a rot).fw ∧
    sheetH a rot / (grid_for_rot a rot).rows = (grid_for_rot a rot).fh ∧
    0 < (grid_for_rot a rot).cols ∧ 0 < (grid_for_rot a rot).rows ∧
    0 ≤ sheetW a rot ∧ 0 ≤ sheetH a rot := by
  unfold SPRITE_COLS SPRITE_ROWS at *
  interval_cases rot <;>
    simp [grid_for_rot, sheetW, sheetH, App.fw, App.fh, SPRITE_COLS,
      SPRITE_ROWS] <;>
    omega

theorem qtrunc_int_add_half (m : Int) (hm : 0 ≤ m) :
    qtrunc ((m : ℚ) + 1/2) = m := by
  have hmq : (0 : ℚ) ≤ (m : ℚ) := by exact_mod_cast hm
  unfold qtrunc
  rw [if_neg (not_lt.mpr (by linarith))]
  rw [Int.floor_eq_iff]
  constructor
  · linarith
  · linarith

theorem qtrunc_int_half (m : Int) (hm : 0 ≤ m) :
    qtrunc ((m : ℚ) * (1/2) + 1/2) = (m + 1) / 2 := by
  have hmq : (0 : ℚ) ≤ (m : ℚ) := by exact_mod_cast hm
  unfold qtrunc
  rw [if_neg (not_lt.mpr (by linarith))]
  have heq : (m : ℚ) * (1/2) + 1/2 = ((m + 1 : Int) : ℚ) / ((2 : ℕ) : ℚ) := by
    push_cast
    ring
  rw [heq, Rat.floor_intCast_div_natCast]
  norm_num

/-- C4 (amended): for every frame index and rotation, the destination
region actually written by the fast-path blit (upscale: src.w*k columns
by src.h*k rows; downscale: ceil(src.w/2) by ceil(src.h/2), per the blit
characterisation lemmas) has exactly the width and height computed by
`draw_size_for_rot`, PROVIDED the grid divides the sheet evenly
(cols ∣ tex_w and rows ∣ tex_h).  When the division leaves a remainder,
a last-column/row frame absorbs it into its source rectangle and the
written size exceeds `draw_size_for_rot` (see the counterexample). -/
theorem C4_written_size_matches_draw_size (a : App) (idx : Int) (rot : Nat)
    (hrot : rot < 4) (hidx0 : 0 ≤ idx)
    (hidx : idx < SPRITE_COLS * SPRITE_ROWS)
    (hdvw : SPRITE_COLS ∣ a.tex_w) (hdvh : SPRITE_ROWS ∣ a.tex_h)
    (hw0 : 0 ≤ a.tex_w) (hh0 : 0 ≤ a.tex_h) :
    (∀ k : Nat, k = 2 ∨ k = 3 ∨ k = 4 → a.scale = (k : ℚ) →
      (((get_src_for_frame_rot a idx rot).w.toNat * k : Nat) : Int) =
        (draw_size_for_rot a rot).1 ∧
      (((get_src_for_frame_rot a idx rot).h.toNat * k : Nat) : Int) =
        (draw_size_for_rot a rot).2) ∧
    (a.scale = 1/2 →
      ((((get_src_for_frame_rot a idx rot).w.toNat + 1) / 2 : Nat) : Int) =
        (draw_size_for_rot a rot).1 ∧
      ((((get_src_for_frame_rot a idx rot).h.toNat + 1) / 2 : Nat) : Int) =
        (draw_size_for_rot a rot).2) := by
  obtain ⟨hc0, hclt, hr0, hrlt⟩ := map_cell_bounds idx rot hidx0 hidx hrot
  obtain ⟨hdw, hdh, hfweq, hfheq, hcols, hrows, hW0, hH0⟩ :=
    grid_div_facts a rot hrot hdvw hdvh hw0 hh0
  have hsw : (get_src_for_frame_rot a idx rot).w = (grid_for_rot a rot).fw := by
    show (src_axis (sheetW a rot) (grid_for_rot a rot).cols
      (map_cell_for_rot rot (idx / SPRITE_COLS) (idx % SPRITE_COLS)).2).2 = _
    rw [src_axis_div _ _ _ hcols hdw hW0 hc0 hclt, hfweq]
  have hsh : (get_src_for_frame_rot a idx rot).h = (grid_for_rot a rot).fh := by
    show (src_axis (sheetH a rot) (grid_for_rot a rot).rows
      (map_cell_for_rot rot (idx / SPRITE_COLS) (idx % SPRITE_COLS)).1).2 = _
    rw [src_axis_div _ _ _ hrows hdh hH0 hr0 hrlt, hfheq]
  have hfw0 : 0 ≤ (grid_for_rot a rot).fw := by
    rw [← hfweq]
    exact Int.ediv_nonneg hW0 (by omega)
  have hfh0 : 0 ≤ (grid_for_rot a rot).fh := by
    rw [← hfheq]
    exact Int.ediv_nonneg hH0 (by omega)
  constructor
  · intro k hk hsc
    have hup : ∀ m : Int, 0 ≤ m →
        qtrunc ((m : ℚ) * a.scale + 1/2) = m * (k : Int) := by
      intro m hm
      rw [hsc]
      have heq : (m : ℚ) * ((k : Nat) : ℚ) + 1/2 =
          ((m * (k : Int) : Int) : ℚ) + 1/2 := by
        push_cast
        ring
      rw [heq, qtrunc_int_add_half _ (by positivity)]
    constructor
    · show _ = qtrunc (((grid_for_rot a rot).fw : ℚ) * a.scale + 1/2)
      rw [hup _ hfw0, hsw]
      push_cast [Int.toNat_of_nonneg hfw0]
      ring
    · show _ = qtrunc (((grid_for_rot a rot).fh : ℚ) * a.scale + 1/2)
      rw [hup _ hfh0, hsh]
      push_cast [Int.toNat_of_nonneg hfh0]
      ring
  · intro hsc
    constructor
    · show _ = qtrunc (((grid_for_rot a rot).fw : ℚ) * a.scale + 1/2)
      rw [hsc, qtrunc_int_half _ hfw0, hsw]
      omega
    · show _ = qtrunc (((grid_for_rot a rot).fh : ℚ) * a.scale + 1/2)
      rw [hsc, qtrunc_int_half _ hfh0, hsh]
      omega

/-- The app state of the spec's scenario sheet (800×400, grid 8×4,
100×100 frames) at scale 2. -/
def cApp800 : App :=
  ⟨720, 720, 800, 400, 41, 0, 0, 0, 0, 9/5, 7/5, 0, 2, 3, ⟨0, 0, 0, 0⟩, false⟩

/-- An app state with an 810-pixel-wide sheet: 8 columns of nominal
width 101, with the last column 103 pixels wide. -/
def cApp810 : App :=
  ⟨720, 720, 810, 400, 41, 0, 0, 0, 0, 9/5, 7/5, 0, 2, 3, ⟨0, 0, 0, 0⟩, false⟩

theorem C4_witness :
    ((0 : Nat) < 4 ∧ (0 : Int) ≤ 7 ∧ (7 : Int) < SPRITE_COLS * SPRITE_ROWS ∧
      SPRITE_COLS ∣ (800 : Int) ∧ SPRITE_ROWS ∣ (400 : Int) ∧
      cApp800.scale = ((2 : Nat) : ℚ)) ∧
    (((get_src_for_frame_rot cApp800 7 0).w.toNat * 2 : Nat) : Int) =
      (draw_size_for_rot cApp800 0).1 :=
  ⟨⟨by decide, by decide, by decide, by decide, by decide, by
      norm_num [cApp800]⟩,
    ((C4_written_size_matches_draw_size cApp800 7 0 (by decide) (by decide)
        (by decide) (by decide) (by decide) (by decide) (by decide)).1 2
      (Or.inl rfl) (by norm_num [cApp800])).1⟩

/-- C4 counterexample: with the 810-wide sheet, frame 7 (last column) at
rotation 0 and scale 2 has source width 103, so the fast path writes
206 destination columns, while `draw_size_for_rot` reports
round(101 * 2) = 202. -/
theorem C4_counterexample :
    ¬((((get_src_for_frame_rot cApp810 7 0).w.toNat * 2 : Nat) : Int) =
      (draw_size_for_rot cApp810 0).1) := by
  intro h
  have h1 : (get_src_for_frame_rot cApp810 7 0).w = 103 := by decide
  have hfw : (grid_for_rot cApp810 0).fw = 101 := by decide
  have h2 : (draw_size_for_rot cApp810 0).1 = 202 := by
    show qtrunc (((grid_for_rot cApp810 0).fw : ℚ) * cApp810.scale + 1/2) = 202
    rw [hfw]
    show qtrunc (((101 : Int) : ℚ) * 2 + 1/2) = 202
    unfold qtrunc
    rw [if_neg (by norm_num)]
    norm_num
  rw [h1, h2] at h
  norm_num at h

/- ----------------- per-tick iterate step ----------------- -/

/-- The state effect of `SDL_AppIterate` on the modelled fields:
advance the animation accumulator and frame, move and bounce, compute the
frame's source rectangle and the destination rectangle
`{ (int)x, (int)y, dw, dh }` (with width/height replaced by the source
rectangle's when scale == 1.0), and unconditionally record it as
`prev_dst` with `has_prev = true`.  `delta` is `SDL_GetTicks() - last_ms`;
`blit_ok` is the boolean outcome of the blit/fallback calls, which the C
code only feeds to `SDL_Log` — it affects no state, which is the point of
C10.  The dirty-rect fill, the blit's effect on the window surface and
the present call touch only the window pixels, which are not part of this
state model. -/
def SDL_AppIterate (a : App) (delta : Nat) (blit_ok : Bool) : App :=
  let af := animLoop a.anim_step_ms_eff a.frames (a.ms_accum + delta) a.frame
  let dwdh := draw_size_for_rot a a.rot
  let mv := moveBounce a.screen_w a.screen_h dwdh.1 dwdh.2 a.x a.y a.vx a.vy
  let src := get_src_for_frame_rot a (af.2 : Int) a.rot
  let dst : SDLRect :=
    if a.scale = 1 then ⟨qtrunc mv.1, qtrunc mv.2.1, src.w, src.h⟩
    else ⟨qtrunc mv.1, qtrunc mv.2.1, dwdh.1, dwdh.2⟩
  let _ := blit_ok
  { a with
    ms_accum := af.1
    frame := af.2
    x := mv.1
    y := mv.2.1
    vx := mv.2.2.1
    vy := mv.2.2.2
    prev_dst := dst
    has_prev := true }

/-- The destination rectangle computed during a tick of `SDL_AppIterate`:
position cast to int after the move-and-bounce, with the drawn size from
`draw_size_for_rot`, except at scale 1.0 where the width and height are
the source rectangle's. -/
def tickDstRect (a : App) (delta : Nat) : SDLRect :=
  let frame1 :=
    (animLoop a.anim_step_ms_eff a.frames (a.ms_accum + delta) a.frame).2
  let dwdh := draw_size_for_rot a a.rot
  let mv := moveBounce a.screen_w a.screen_h dwdh.1 dwdh.2 a.x a.y a.vx a.vy
  let src := get_src_for_frame_rot a (frame1 : Int) a.rot
  if a.scale = 1 then ⟨qtrunc mv.1, qtrunc mv.2.1, src.w, src.h⟩
  else ⟨qtrunc mv.1, qtrunc mv.2.1, dwdh.1, dwdh.2⟩

/-- C10: after every per-tick iterate step, `has_prev` is true and
`prev_dst` equals the destination rectangle computed during that tick
(position-cast-to-int plus the drawn size, with width/height replaced by
the source rectangle's at scale 1.0), regardless of whether the blit
succeeded or reported failure — so the next tick's erase fills exactly
that rectangle even for a frame that was never drawn. -/
theorem C10_prev_dst_always_recorded (a : App) (delta : Nat)
    (blit_ok : Bool) :
    (SDL_AppIterate a delta blit_ok).has_prev = true ∧
    (SDL_AppIterate a delta blit_ok).prev_dst = tickDstRect a delta := by
  constructor <;> rfl
